import Mathlib

/-!
Verification development for the calyx file-tree scanner (src/calyx.go).

The repository source has three variants of the same program separated by
document markers:
* variant 1 (lines 1-173): SQLite store, 4 analyzer goroutines, per-row
  INSERT OR REPLACE, walker aborts on directory-listing errors, analyzer
  skips an entry when the classifier fails;
* variant 2 (lines 174-396): Postgres store, 1 analyzer, batched
  transactions committed every txCommitInterval rows, walker logs and
  continues on directory-listing errors, analyzer persists an entry with
  an empty classification when the classifier fails, and records the
  parent directory itself as the path of every directory entry;
* variant 3 (lines 397-506): print-only analyzer (not cited by claims).

This file shallowly embeds both cited variants.  Filesystem traversal is
modelled twice, matching the two kinds of claims:
* an inductive tree `FsNode` for claims about complete successful walks
  (every directory listing succeeds, the structure the walker visits is
  the actual tree);
* an abstract `FileSystem` of stat/readDir outcomes plus fuel for claims
  about failure paths of the walker.
-/

namespace Calyx

/-- POSIX attributes of a filesystem object as seen by the Go program
(`os.FileInfo`): Name, Size, Mode, ModTime, IsDir. -/
structure FileInfo where
  name : String
  size : Int
  mode : Nat
  modTime : String
  isDir : Bool
deriving DecidableEq, Repr, Inhabited

/-- `FileEntry` of src/calyx.go: the parent directory path plus the
`os.FileInfo` of the object. -/
structure FileEntry where
  path : String
  info : FileInfo
deriving DecidableEq, Repr, Inhabited

/-- Models Go `path.Join` for the two-argument calls in calyx.go: empty
components are dropped, the rest are concatenated with a slash.  (Go
additionally applies `path.Clean`; of its normalisations only the
collapsing of a doubled slash after a root component can arise here, so
that case is handled and dot components, which never occur in this
development, are not.) -/
def pathJoin (a b : String) : String :=
  if a = "" then b
  else if b = "" then a
  else if a.data.getLast? = some '/' then a ++ b
  else a ++ "/" ++ b

/-- Models Go `path.Dir`: everything before the final slash (with the
trailing slash removed unless the result is the root), `"."` when the
path contains no slash, `"/"` for `"/"` itself. -/
def pathDir (p : String) : String :=
  match (p.data.reverse.dropWhile (fun c => c ≠ '/')) with
  | [] => "."
  | ['/'] => "/"
  | '/' :: rest => rest.reverse.asString
  | rest => rest.reverse.asString

/-- Models Go `path.Ext`: the suffix starting at the final dot of the
final slash-separated element, empty when that element has no dot. -/
def pathExt (p : String) : String :=
  let seg := p.data.reverse.takeWhile (fun c => c ≠ '/')
  let pre := seg.takeWhile (fun c => c ≠ '.')
  if pre.length = seg.length then "" else ('.' :: pre.reverse).asString

/-- Models Go `strings.Split(s, ",")[0]`: the prefix of `s` before its
first comma (all of `s` when it has no comma, `""` when `s` is empty). -/
def splitFirst (s : String) : String :=
  (s.data.takeWhile (fun c => c ≠ ',')).asString

/-- Modelled from the spec: `classificationSummary` is the substring of
`classification` before its first comma, or empty if `classification` is
empty.  Stated independently of the code so the code's computation can be
proved to refine it. -/
def specClassificationSummary (c : String) : String :=
  (c.data.takeWhile (fun ch => ch ≠ ',')).asString

/-! ### Tree model of a filesystem for successful walks -/

/-- The stat data of one filesystem object, without the directory bit
(which is determined by the node shape). -/
structure FileMeta where
  name : String
  size : Int
  mode : Nat
  modTime : String
deriving DecidableEq, Repr, Inhabited

/-- A concrete filesystem tree: every node is a file or a directory with
an (ordered) list of children, and every directory listing succeeds. -/
inductive FsNode where
  | file : FileMeta → FsNode
  | dir : FileMeta → List FsNode → FsNode
deriving Repr, Inhabited

/-- Stat data of a node. -/
def FsNode.meta : FsNode → FileMeta
  | .file m => m
  | .dir m _ => m

/-- Directory bit of a node, as `os.FileInfo.IsDir` reports it. -/
def FsNode.isDir : FsNode → Bool
  | .file _ => false
  | .dir _ _ => true

/-- The `os.FileInfo` the Go program observes for a node. -/
def FsNode.info (n : FsNode) : FileInfo :=
  { name := n.meta.name, size := n.meta.size, mode := n.meta.mode,
    modTime := n.meta.modTime, isDir := n.isDir }

mutual

/-- Number of filesystem objects in a tree (the node itself included). -/
def FsNode.size : FsNode → Nat
  | .file _ => 1
  | .dir _ cs => 1 + FsNode.sizeList cs

/-- Total number of filesystem objects in a forest. -/
def FsNode.sizeList : List FsNode → Nat
  | [] => 0
  | c :: cs => FsNode.size c + FsNode.sizeList cs

end

mutual

/-- Number of directories in a tree, the root included when it is one. -/
def FsNode.countDirs : FsNode → Nat
  | .file _ => 0
  | .dir _ cs => 1 + FsNode.countDirsList cs

/-- Number of directories in a forest. -/
def FsNode.countDirsList : List FsNode → Nat
  | [] => 0
  | c :: cs => FsNode.countDirs c + FsNode.countDirsList cs

end

mutual

/-- Number of plain files in a tree. -/
def FsNode.countFiles : FsNode → Nat
  | .file _ => 1
  | .dir _ cs => FsNode.countFilesList cs

/-- Number of plain files in a forest. -/
def FsNode.countFilesList : List FsNode → Nat
  | [] => 0
  | c :: cs => FsNode.countFiles c + FsNode.countFilesList cs

end

theorem FsNode.one_le_size (n : FsNode) : 1 ≤ n.size := by
  cases n <;> simp [FsNode.size]

theorem FsNode.sizeList_append (a b : List FsNode) :
    FsNode.sizeList (a ++ b) = FsNode.sizeList a + FsNode.sizeList b := by
  induction a with
  | nil => simp [FsNode.sizeList]
  | cons c cs ih => simp [FsNode.sizeList, ih]; omega

theorem FsNode.countDirsList_append (a b : List FsNode) :
    FsNode.countDirsList (a ++ b)
      = FsNode.countDirsList a + FsNode.countDirsList b := by
  induction a with
  | nil => simp [FsNode.countDirsList]
  | cons c cs ih => simp [FsNode.countDirsList, ih]; omega

theorem FsNode.countFilesList_append (a b : List FsNode) :
    FsNode.countFilesList (a ++ b)
      = FsNode.countFilesList a + FsNode.countFilesList b := by
  induction a with
  | nil => simp [FsNode.countFilesList]
  | cons c cs ih => simp [FsNode.countFilesList, ih]; omega

/-- In a forest, every node is a directory or a file, so total node count
splits as directory count plus file count (strong induction on total
size, since `FsNode` nests through `List`). -/
theorem FsNode.sizeList_eq_dirs_add_files (cs : List FsNode) :
    FsNode.sizeList cs = FsNode.countDirsList cs + FsNode.countFilesList cs := by
  have key : ∀ (N : Nat) (cs : List FsNode), FsNode.sizeList cs ≤ N →
      FsNode.sizeList cs = FsNode.countDirsList cs + FsNode.countFilesList cs := by
    intro N
    induction N with
    | zero =>
        intro cs h
        match cs with
        | [] => rfl
        | c :: cs =>
            exfalso
            have h1 := FsNode.one_le_size c
            simp [FsNode.sizeList] at h
            omega
    | succ N ih =>
        intro cs h
        match cs with
        | [] => rfl
        | .file m :: cs =>
            have h' : FsNode.sizeList cs ≤ N := by
              simp [FsNode.sizeList, FsNode.size] at h; omega
            simp [FsNode.sizeList, FsNode.size, FsNode.countDirsList,
              FsNode.countDirs, FsNode.countFiles, FsNode.countFilesList, ih cs h']
            omega
        | .dir m gs :: cs =>
            have h' : FsNode.sizeList (gs ++ cs) ≤ N := by
              rw [FsNode.sizeList_append]
              simp [FsNode.sizeList, FsNode.size] at h
              omega
            have hrec := ih (gs ++ cs) h'
            rw [FsNode.sizeList_append, FsNode.countDirsList_append,
              FsNode.countFilesList_append] at hrec
            simp [FsNode.sizeList, FsNode.size, FsNode.countDirsList,
              FsNode.countDirs, FsNode.countFiles, FsNode.countFilesList]
            omega
  exact key (FsNode.sizeList cs) cs (Nat.le_refl _)

theorem FsNode.size_eq_dirs_add_files (n : FsNode) :
    n.size = n.countDirs + n.countFiles := by
  cases n with
  | file m => rfl
  | dir m cs =>
      simp [FsNode.size, FsNode.countDirs, FsNode.countFiles,
        FsNode.sizeList_eq_dirs_add_files cs]
      omega

/-! ### The walker on the tree model

`fileTreeWalker` of src/calyx.go (lines 88-117 and 279-309; on trees,
where every `ioutil.ReadDir` succeeds, the two variants behave
identically): breadth-first queue of pending directories, the root
sentinel entry sent first, every listed child sent immediately and child
directories enqueued. -/

/-- The queue element for a pending directory: its path together with
its listing (`ioutil.ReadDir dir` on the tree model). -/
def dirPairs (dirPath : String) (children : List FsNode) :
    List (String × List FsNode) :=
  children.filterMap (fun c =>
    match c with
    | .dir m cs => some (pathJoin dirPath m.name, cs)
    | .file _ => none)

/-- Termination measure for the breadth-first loop: total tree weight
left in the queue. -/
def queueWeight (q : List (String × List FsNode)) : Nat :=
  (q.map (fun pc => 1 + FsNode.sizeList pc.2)).sum

theorem queueWeight_append (a b : List (String × List FsNode)) :
    queueWeight (a ++ b) = queueWeight a + queueWeight b := by
  simp [queueWeight]

theorem queueWeight_cons (p : String) (ch : List FsNode)
    (rest : List (String × List FsNode)) :
    queueWeight ((p, ch) :: rest) = 1 + FsNode.sizeList ch + queueWeight rest := by
  simp [queueWeight]

theorem queueWeight_dirPairs_le (p : String) (ch : List FsNode) :
    queueWeight (dirPairs p ch) ≤ FsNode.sizeList ch := by
  induction ch with
  | nil => simp [dirPairs, queueWeight, FsNode.sizeList]
  | cons c cs ih =>
      cases c with
      | file m =>
          have hpair : dirPairs p (.file m :: cs) = dirPairs p cs := by
            simp [dirPairs]
          have h2 : FsNode.sizeList (.file m :: cs)
              = FsNode.size (.file m) + FsNode.sizeList cs := rfl
          have h1 := FsNode.one_le_size (FsNode.file m)
          rw [hpair, h2]
          omega
      | dir m gs =>
          have hpair : dirPairs p (.dir m gs :: cs)
              = (pathJoin p m.name, gs) :: dirPairs p cs := by
            simp [dirPairs]
          have h2 : FsNode.sizeList (.dir m gs :: cs)
              = (1 + FsNode.sizeList gs) + FsNode.sizeList cs := rfl
          rw [hpair, queueWeight_cons, h2]
          omega

/-- The `for len(queue) != 0` loop of `fileTreeWalker`: pop one pending
directory, emit a `FileEntry` for each child, enqueue child
directories. -/
def walkQueue : List (String × List FsNode) → List FileEntry
  | [] => []
  | (dirPath, children) :: rest =>
      children.map (fun c => ⟨dirPath, c.info⟩)
        ++ walkQueue (rest ++ dirPairs dirPath children)
termination_by q => queueWeight q
decreasing_by
  simp only [queueWeight_append, queueWeight_cons]
  have h := queueWeight_dirPairs_le dirPath children
  omega

/-- `fileTreeWalker` on the tree model: after a successful root stat of
a directory, the root sentinel `FileEntry{path.Dir(rootPath), info}` is
sent, then the queue seeded with the root is drained.  A file root takes
the error return and sends nothing. -/
def fileTreeWalkerTree (rootPath : String) : FsNode → List FileEntry
  | .file _ => []
  | .dir m ch =>
      ⟨pathDir rootPath, (FsNode.dir m ch).info⟩ :: walkQueue [(rootPath, ch)]

/-- The canonical depth-first enumeration of the entries for all strict
descendants of a directory with path `p` and listing `l`: one
`FileEntry` per filesystem object, each exactly once.  Used as the
specification the breadth-first walker is compared against. -/
def preorderEntries (p : String) : List FsNode → List FileEntry
  | [] => []
  | .file m :: cs => ⟨p, (FsNode.file m).info⟩ :: preorderEntries p cs
  | .dir m ch :: cs =>
      ⟨p, (FsNode.dir m ch).info⟩ ::
        (preorderEntries (pathJoin p m.name) ch ++ preorderEntries p cs)
termination_by l => FsNode.sizeList l
decreasing_by
  all_goals simp [FsNode.sizeList, FsNode.size]
  all_goals omega

/-- A forest's node count splits into the listing itself plus the nodes
below the child directories. -/
theorem sizeList_split (p : String) (ch : List FsNode) :
    FsNode.sizeList ch
      = ch.length + ((dirPairs p ch).map (fun pc => FsNode.sizeList pc.2)).sum := by
  induction ch with
  | nil => simp [FsNode.sizeList, dirPairs]
  | cons c cs ih =>
      cases c with
      | file m =>
          have hpair : dirPairs p (.file m :: cs) = dirPairs p cs := by
            simp [dirPairs]
          have h2 : FsNode.sizeList (.file m :: cs) = 1 + FsNode.sizeList cs := rfl
          rw [hpair, h2, ih]
          simp
          omega
      | dir m gs =>
          have hpair : dirPairs p (.dir m gs :: cs)
              = (pathJoin p m.name, gs) :: dirPairs p cs := by
            simp [dirPairs]
          have h2 : FsNode.sizeList (.dir m gs :: cs)
              = (1 + FsNode.sizeList gs) + FsNode.sizeList cs := rfl
          rw [hpair, h2, ih]
          simp
          omega

/-- The walker loop emits exactly one entry per node below the queued
directories. -/
theorem walkQueue_length (q : List (String × List FsNode)) :
    (walkQueue q).length = (q.map (fun pc => FsNode.sizeList pc.2)).sum := by
  induction q using walkQueue.induct with
  | case1 => simp [walkQueue]
  | case2 dirPath children rest ih =>
      rw [walkQueue]
      simp only [List.length_append, List.length_map, ih, List.map_append,
        List.sum_append, List.map_cons, List.sum_cons]
      rw [sizeList_split dirPath children]
      omega

/-- One level of `preorderEntries`: a directory's subtree entries are
its listing plus the subtrees of its child directories, up to
reordering. -/
theorem preorderEntries_split (p : String) (ch : List FsNode) :
    List.Perm (preorderEntries p ch)
      ((ch.map (fun c => (⟨p, c.info⟩ : FileEntry)))
        ++ ((dirPairs p ch).map (fun pc => preorderEntries pc.1 pc.2)).flatten) := by
  induction ch with
  | nil => simp [preorderEntries, dirPairs]
  | cons c cs ih =>
      cases c with
      | file m =>
          have hpair : dirPairs p (.file m :: cs) = dirPairs p cs := by
            simp [dirPairs]
          rw [hpair, preorderEntries]
          simpa using List.Perm.cons (⟨p, (FsNode.file m).info⟩ : FileEntry) ih
      | dir m gs =>
          have hpair : dirPairs p (.dir m gs :: cs)
              = (pathJoin p m.name, gs) :: dirPairs p cs := by
            simp [dirPairs]
          rw [hpair, preorderEntries]
          simp only [List.map_cons, List.flatten_cons, List.cons_append]
          apply List.Perm.cons
          have step1 : List.Perm
              (preorderEntries (pathJoin p m.name) gs ++ preorderEntries p cs)
              (preorderEntries (pathJoin p m.name) gs
                ++ ((cs.map (fun c => (⟨p, c.info⟩ : FileEntry)))
                  ++ ((dirPairs p cs).map (fun pc => preorderEntries pc.1 pc.2)).flatten)) :=
            List.Perm.append_left _ ih
          refine step1.trans ?_
          rw [← List.append_assoc, ← List.append_assoc]
          exact List.Perm.append_right _ (List.perm_append_comm)

/-- The breadth-first walker loop emits, up to reordering, exactly the
depth-first enumeration of the nodes below the queued directories. -/
theorem walkQueue_perm (q : List (String × List FsNode)) :
    List.Perm (walkQueue q)
      ((q.map (fun pc => preorderEntries pc.1 pc.2)).flatten) := by
  induction q using walkQueue.induct with
  | case1 => simp [walkQueue]
  | case2 dirPath children rest ih =>
      rw [walkQueue]
      simp only [List.map_cons, List.flatten_cons, List.map_append,
        List.flatten_append] at *
      refine (List.Perm.append_left _ ih).trans ?_
      have goal1 : List.Perm
          ((rest.map (fun pc => preorderEntries pc.1 pc.2)).flatten
            ++ ((dirPairs dirPath children).map (fun pc => preorderEntries pc.1 pc.2)).flatten)
          (((dirPairs dirPath children).map (fun pc => preorderEntries pc.1 pc.2)).flatten
            ++ (rest.map (fun pc => preorderEntries pc.1 pc.2)).flatten) :=
        List.perm_append_comm
      refine (List.Perm.append_left _ goal1).trans ?_
      rw [← List.append_assoc]
      exact List.Perm.append_right _ (preorderEntries_split dirPath children).symm

/-- C1.  For every directory tree in which the root is a directory and
every directory listing succeeds (the `FsNode` model), with
`D = FsNode.countDirsList ch` directories and
`F = FsNode.countFilesList ch` files reachable below the root, the
walker `fileTreeWalkerTree` sends exactly `D + F + 1` `FileEntry` values
(one per file, one per directory, plus the synthetic root sentinel), and
each filesystem object appears exactly once: the emitted list is a
permutation of the root sentinel followed by the canonical depth-first
enumeration `preorderEntries`, which contains exactly one entry per
node. -/
theorem walker_emits_each_object_exactly_once
    (rootPath : String) (m : FileMeta) (ch : List FsNode) :
    (fileTreeWalkerTree rootPath (.dir m ch)).length
        = FsNode.countDirsList ch + FsNode.countFilesList ch + 1
    ∧ List.Perm (fileTreeWalkerTree rootPath (.dir m ch))
        ((⟨pathDir rootPath, (FsNode.dir m ch).info⟩ : FileEntry)
          :: preorderEntries rootPath ch)
    ∧ (preorderEntries rootPath ch).length = FsNode.sizeList ch := by
  have hq : (walkQueue [(rootPath, ch)]).length = FsNode.sizeList ch := by
    rw [walkQueue_length]
    simp
  have hperm : List.Perm (walkQueue [(rootPath, ch)]) (preorderEntries rootPath ch) := by
    have h := walkQueue_perm [(rootPath, ch)]
    simpa using h
  refine ⟨?_, ?_, ?_⟩
  · show (_ :: walkQueue [(rootPath, ch)]).length = _
    rw [List.length_cons, hq, FsNode.sizeList_eq_dirs_add_files]
  · exact List.Perm.cons _ hperm
  · rw [← hperm.length_eq, hq]

/-! ### The walker on an abstract filesystem, for its failure paths

`FileSystem` records the outcome of every `os.Stat` and
`ioutil.ReadDir` call; `none` is a failed call.  The loop takes fuel so
that it is total in Lean; the real loop runs until the queue empties,
and a result with `fuelOut = true` corresponds to no exit path of the
Go function having been reached yet. -/

/-- Outcomes of the system calls the walker makes. -/
structure FileSystem where
  stat : String → Option FileInfo
  readDir : String → Option (List FileInfo)

/-- The three error returns of `fileTreeWalker`. -/
inductive WalkError where
  | statFailed
  | notADirectory
  | readDirFailed
deriving DecidableEq, Repr

/-- What a run of `fileTreeWalker` did: the entries sent to the channel
in order, whether the channel was closed (the `defer close(files)`),
which error return was taken, and whether the model ran out of fuel
before the function returned. -/
structure WalkResult where
  emitted : List FileEntry
  closed : Bool
  error : Option WalkError
  fuelOut : Bool
deriving Repr

/-- The queue loop of variant 1 (src/calyx.go lines 101-115): a failed
`ioutil.ReadDir` is returned as an error. -/
def walkLoop1 (fs : FileSystem) : Nat → List String → List FileEntry → WalkResult
  | _, [], acc => { emitted := acc, closed := true, error := none, fuelOut := false }
  | 0, _ :: _, acc => { emitted := acc, closed := true, error := none, fuelOut := true }
  | fuel + 1, dir :: rest, acc =>
      match fs.readDir dir with
      | none =>
          { emitted := acc, closed := true, error := some .readDirFailed,
            fuelOut := false }
      | some entries =>
          walkLoop1 fs fuel
            (rest ++ (entries.filter (fun e => e.isDir)).map
              (fun e => pathJoin dir e.name))
            (acc ++ entries.map (fun e => (⟨dir, e⟩ : FileEntry)))

/-- The queue loop of variant 2 (src/calyx.go lines 292-307): a failed
`ioutil.ReadDir` is logged and the loop soldiers on (the nil listing
contributes no children). -/
def walkLoop2 (fs : FileSystem) : Nat → List String → List FileEntry → WalkResult
  | _, [], acc => { emitted := acc, closed := true, error := none, fuelOut := false }
  | 0, _ :: _, acc => { emitted := acc, closed := true, error := none, fuelOut := true }
  | fuel + 1, dir :: rest, acc =>
      match fs.readDir dir with
      | none => walkLoop2 fs fuel rest acc
      | some entries =>
          walkLoop2 fs fuel
            (rest ++ (entries.filter (fun e => e.isDir)).map
              (fun e => pathJoin dir e.name))
            (acc ++ entries.map (fun e => (⟨dir, e⟩ : FileEntry)))

/-- Variant 1 `fileTreeWalker` (src/calyx.go lines 88-117) on the
abstract filesystem.  Every return path constructs its result with
`closed := true`, mirroring the `defer close(files)` at function entry,
which runs on every exit path. -/
def fileTreeWalker1 (fs : FileSystem) (fuel : Nat) (rootPath : String) : WalkResult :=
  match fs.stat rootPath with
  | none =>
      { emitted := [], closed := true, error := some .statFailed, fuelOut := false }
  | some info =>
      if info.isDir then
        walkLoop1 fs fuel [rootPath] [⟨pathDir rootPath, info⟩]
      else
        { emitted := [], closed := true, error := some .notADirectory,
          fuelOut := false }

/-- Variant 2 `fileTreeWalker` (src/calyx.go lines 279-309) on the
abstract filesystem; identical up to the listing-error policy of the
loop. -/
def fileTreeWalker2 (fs : FileSystem) (fuel : Nat) (rootPath : String) : WalkResult :=
  match fs.stat rootPath with
  | none =>
      { emitted := [], closed := true, error := some .statFailed, fuelOut := false }
  | some info =>
      if info.isDir then
        walkLoop2 fs fuel [rootPath] [⟨pathDir rootPath, info⟩]
      else
        { emitted := [], closed := true, error := some .notADirectory,
          fuelOut := false }

/-- The initial root check fails: the root cannot be stat'ed, or it
stats to something that is not a directory. -/
def rootCheckFails (fs : FileSystem) (rootPath : String) : Prop :=
  fs.stat rootPath = none
    ∨ ∃ i, fs.stat rootPath = some i ∧ i.isDir = false

theorem walkLoop1_closed (fs : FileSystem) :
    ∀ (fuel : Nat) (q : List String) (acc : List FileEntry),
      (walkLoop1 fs fuel q acc).closed = true := by
  intro fuel
  induction fuel with
  | zero =>
      intro q acc
      cases q <;> simp [walkLoop1]
  | succ fuel ih =>
      intro q acc
      cases q with
      | nil => simp [walkLoop1]
      | cons dir rest =>
          rw [walkLoop1]
          cases fs.readDir dir <;> simp [ih]

theorem walkLoop2_closed (fs : FileSystem) :
    ∀ (fuel : Nat) (q : List String) (acc : List FileEntry),
      (walkLoop2 fs fuel q acc).closed = true := by
  intro fuel
  induction fuel with
  | zero =>
      intro q acc
      cases q <;> simp [walkLoop2]
  | succ fuel ih =>
      intro q acc
      cases q with
      | nil => simp [walkLoop2]
      | cons dir rest =>
          rw [walkLoop2]
          cases fs.readDir dir <;> simp [ih]

/-- The loop only extends the list of entries already sent. -/
theorem walkLoop1_emitted_grows (fs : FileSystem) :
    ∀ (fuel : Nat) (q : List String) (acc : List FileEntry),
      ∃ t, (walkLoop1 fs fuel q acc).emitted = acc ++ t := by
  intro fuel
  induction fuel with
  | zero =>
      intro q acc
      cases q <;> exact ⟨[], by simp [walkLoop1]⟩
  | succ fuel ih =>
      intro q acc
      cases q with
      | nil => exact ⟨[], by simp [walkLoop1]⟩
      | cons dir rest =>
          rw [walkLoop1]
          cases h : fs.readDir dir with
          | none => exact ⟨[], by simp⟩
          | some entries =>
              obtain ⟨t, ht⟩ := ih
                (rest ++ (entries.filter (fun e => e.isDir)).map
                  (fun e => pathJoin dir e.name))
                (acc ++ entries.map (fun e => (⟨dir, e⟩ : FileEntry)))
              exact ⟨entries.map (fun e => (⟨dir, e⟩ : FileEntry)) ++ t, by
                simp [ht]⟩

/-- Variant 2's loop never takes an error return. -/
theorem walkLoop2_no_error (fs : FileSystem) :
    ∀ (fuel : Nat) (q : List String) (acc : List FileEntry),
      (walkLoop2 fs fuel q acc).error = none := by
  intro fuel
  induction fuel with
  | zero =>
      intro q acc
      cases q <;> simp [walkLoop2]
  | succ fuel ih =>
      intro q acc
      cases q with
      | nil => simp [walkLoop2]
      | cons dir rest =>
          rw [walkLoop2]
          cases fs.readDir dir <;> simp [ih]

/-- C7.  On every exit path of the Walker — normal completion, root stat
failure, root-not-a-directory failure, and (for variant 1) directory
listing failure — the output channel is closed, because the
`defer close(files)` placed before any return is reflected in every
return path of the model. -/
theorem walker_closes_channel_on_every_exit
    (fs : FileSystem) (fuel : Nat) (rootPath : String) :
    (fileTreeWalker1 fs fuel rootPath).closed = true
    ∧ (fileTreeWalker2 fs fuel rootPath).closed = true := by
  constructor
  · rw [fileTreeWalker1]
    cases fs.stat rootPath with
    | none => rfl
    | some info =>
        by_cases h : info.isDir <;> simp [h, walkLoop1_closed]
  · rw [fileTreeWalker2]
    cases fs.stat rootPath with
    | none => rfl
    | some info =>
        by_cases h : info.isDir <;> simp [h, walkLoop2_closed]

/-- C8.  The Walker's initial failure — an error return with nothing
produced — happens exactly when the root cannot be stat'ed or is not a
directory.  For variant 2 this characterises every error return (its
loop never errors); for variant 1, an error with an empty output stream
likewise occurs exactly on the failed root check (a later
directory-listing error always comes after the root sentinel was
sent). -/
theorem walker_initial_failure_iff_root_check
    (fs : FileSystem) (fuel : Nat) (rootPath : String) :
    (((fileTreeWalker1 fs fuel rootPath).error ≠ none
        ∧ (fileTreeWalker1 fs fuel rootPath).emitted = [])
      ↔ rootCheckFails fs rootPath)
    ∧ ((fileTreeWalker2 fs fuel rootPath).error ≠ none ↔ rootCheckFails fs rootPath)
    ∧ ((fileTreeWalker2 fs fuel rootPath).error ≠ none
        → (fileTreeWalker2 fs fuel rootPath).emitted = []) := by
  refine ⟨?_, ?_, ?_⟩
  · rw [fileTreeWalker1]
    cases h : fs.stat rootPath with
    | none => simp [rootCheckFails, h]
    | some info =>
        by_cases hd : info.isDir
        · simp only [hd, if_true]
          constructor
          · rintro ⟨-, hemp⟩
            obtain ⟨t, ht⟩ := walkLoop1_emitted_grows fs fuel [rootPath]
              [⟨pathDir rootPath, info⟩]
            rw [ht] at hemp
            simp at hemp
          · rintro (hbad | ⟨i, hi, hdir⟩)
            · rw [h] at hbad; exact absurd hbad (by simp)
            · rw [h] at hi
              cases hi
              rw [hd] at hdir
              exact absurd hdir (by simp)
        · simp only [hd, if_false]
          simp [rootCheckFails, h]
          simpa using hd
  · rw [fileTreeWalker2]
    cases h : fs.stat rootPath with
    | none => simp [rootCheckFails, h]
    | some info =>
        by_cases hd : info.isDir
        · simp only [hd, if_true]
          rw [walkLoop2_no_error]
          simp [rootCheckFails, h]
          exact hd
        · simp only [hd, if_false]
          simp [rootCheckFails, h]
          simpa using hd
  · rw [fileTreeWalker2]
    cases h : fs.stat rootPath with
    | none => intro; rfl
    | some info =>
        by_cases hd : info.isDir
        · simp only [hd, if_true]
          rw [walkLoop2_no_error]
          simp
        · simp only [hd, if_false]
          intro; rfl

/-! ### The analyzers

The Classifier (libmagic via gomagic) is the external collaborator: a
function from an absolute path to a description, `none` on failure.  The
store is modelled as accepting every insert and commit, matching the
spec's Entry Store collaborator; a failed insert in the Go code is only
logged and changes no control flow. -/

/-- The external classifier: `magic.ExamineFile(path)`, `none` on error. -/
def Classifier : Type := String → Option String

/-- One row of the `file_info` table, in the column order of the insert
statement: name (the computed path), size, mode, time, extension,
is_dir, short_file_info, file_info. -/
structure Row where
  name : String
  size : Int
  mode : Nat
  time : String
  extension : String
  isDir : Bool
  shortFileInfo : String
  fileInfo : String
deriving DecidableEq, Repr

/-- The extension computation both analyzers share: `path.Ext` of the
name with the leading dot stripped when nonempty. -/
def entryExt (e : FileEntry) : String :=
  let fileExt := pathExt e.info.name
  if fileExt.length ≠ 0 then fileExt.drop 1 else fileExt

/-- The path variant 1's analyzer computes (src/calyx.go line 151):
always the join of the entry's parent directory and name. -/
def classifyPath1 (e : FileEntry) : String :=
  pathJoin e.path e.info.name

/-- The path variant 2's analyzer computes (src/calyx.go lines 351-354):
the join, overridden to the bare parent directory for every directory
entry. -/
def classifyPath2 (e : FileEntry) : String :=
  let filePath := pathJoin e.path e.info.name
  if e.info.isDir then e.path else filePath

/-- The body of variant 1's analyzer loop (src/calyx.go lines 150-172)
for one entry: classify, and on failure `continue` — no row is
produced. -/
def processEntry1 (cl : Classifier) (e : FileEntry) : Option Row :=
  let filePath := classifyPath1 e
  match cl filePath with
  | none => none
  | some fileInfo =>
      some { name := filePath, size := e.info.size, mode := e.info.mode,
             time := e.info.modTime, extension := entryExt e,
             isDir := e.info.isDir,
             shortFileInfo := if fileInfo = "" then "" else splitFirst fileInfo,
             fileInfo := fileInfo }

/-- The per-entry computation of variant 2's analyzer loop
(src/calyx.go lines 351-375): on classifier failure the error is logged
and the zero-value `""` classification is used; a row is always
produced. -/
def processEntry2 (cl : Classifier) (e : FileEntry) : Row :=
  let filePath := classifyPath2 e
  let fileInfo := (cl filePath).getD ""
  { name := filePath, size := e.info.size, mode := e.info.mode,
    time := e.info.modTime, extension := entryExt e, isDir := e.info.isDir,
    shortFileInfo := if fileInfo = "" then "" else splitFirst fileInfo,
    fileInfo := fileInfo }

/-- Observable behaviour of variant 1's analyzer: the entries it read
from the channel, the paths it handed to the classifier, and the rows it
executed against the store (each row its own INSERT OR REPLACE). -/
structure Analyzer1Result where
  consumed : List FileEntry
  classifiedPaths : List String
  rows : List Row
deriving DecidableEq, Repr

/-- The `for e := range files` loop of variant 1's analyzer. -/
def analyzer1Go (cl : Classifier) : List FileEntry → Analyzer1Result
  | [] => ⟨[], [], []⟩
  | e :: rest =>
      let r := analyzer1Go cl rest
      match processEntry1 cl e with
      | none =>
          ⟨e :: r.consumed, classifyPath1 e :: r.classifiedPaths, r.rows⟩
      | some row =>
          ⟨e :: r.consumed, classifyPath1 e :: r.classifiedPaths, row :: r.rows⟩

/-- Variant 1's `analyzer` (src/calyx.go lines 121-173).  `init` is the
outcome of `gomagic.New`: on failure the function returns at once,
before reading anything from the channel. -/
def analyzer1 (init : Option Classifier) (entries : List FileEntry) :
    Analyzer1Result :=
  match init with
  | none => ⟨[], [], []⟩
  | some cl => analyzer1Go cl entries

/-- The running state of variant 2's analyzer: the `txCount` counter,
the rows executed in the open transaction, the committed transactions in
commit order, plus its observable channel reads, classifier calls and
log lines. -/
structure Analyzer2State where
  txCount : Nat
  pending : List Row
  committed : List (List Row)
  consumed : List FileEntry
  classifiedPaths : List String
  logs : List String
deriving DecidableEq, Repr

/-- The `for e := range files` loop of variant 2's analyzer
(src/calyx.go lines 337-383), followed on channel exhaustion by the
final `if txCount != 0 { tx.Commit() }` (lines 385-388). -/
def analyzer2Go (cl : Classifier) (K : Nat) :
    Analyzer2State → List FileEntry → Analyzer2State
  | s, [] =>
      if s.txCount ≠ 0 then
        { s with committed := s.committed ++ [s.pending], pending := [] }
      else s
  | s, e :: rest =>
      let filePath := classifyPath2 e
      let logs :=
        match cl filePath with
        | none => s.logs ++ ["gomagic failed on " ++ filePath]
        | some _ => s.logs
      let row := processEntry2 cl e
      let txCount := s.txCount + 1
      let s' :=
        if txCount = K then
          { txCount := 0,
            pending := [],
            committed := s.committed ++ [s.pending ++ [row]],
            consumed := s.consumed ++ [e],
            classifiedPaths := s.classifiedPaths ++ [filePath],
            logs := logs }
        else
          { s with
            txCount := txCount,
            pending := s.pending ++ [row],
            consumed := s.consumed ++ [e],
            classifiedPaths := s.classifiedPaths ++ [filePath],
            logs := logs }
      analyzer2Go cl K s' rest

/-- The state at variant 2's analyzer entry. -/
def analyzer2Start : Analyzer2State := ⟨0, [], [], [], [], []⟩

/-- Variant 2's `analyzer` (src/calyx.go lines 313-389) with commit
interval `K` (`txCommitInterval`).  `init` is the outcome of
`gomagic.New`: on failure the function returns at once. -/
def analyzer2 (init : Option Classifier) (K : Nat) (entries : List FileEntry) :
    Analyzer2State :=
  match init with
  | none => analyzer2Start
  | some cl => analyzer2Go cl K analyzer2Start entries

/-- All rows the store received from variant 2's analyzer, in order:
the committed transactions flattened (after the final flush nothing is
pending). -/
def Analyzer2State.rows (s : Analyzer2State) : List Row :=
  s.committed.flatten

theorem analyzer1Go_rows (cl : Classifier) (entries : List FileEntry) :
    (analyzer1Go cl entries).rows = entries.filterMap (processEntry1 cl) := by
  induction entries with
  | nil => rfl
  | cons e rest ih =>
      rw [analyzer1Go]
      cases h : processEntry1 cl e <;> simp [h, ih]

theorem analyzer1Go_classifiedPaths (cl : Classifier) (entries : List FileEntry) :
    (analyzer1Go cl entries).classifiedPaths = entries.map classifyPath1 := by
  induction entries with
  | nil => rfl
  | cons e rest ih =>
      rw [analyzer1Go]
      cases h : processEntry1 cl e <;> simp [h, ih]

/-- The rows variant 2's analyzer hands to the store: the open
transaction always holds exactly `txCount` rows, and flattening the
transactions recovers one `processEntry2` row per entry, in order. -/
theorem analyzer2Go_rows (cl : Classifier) (K : Nat) :
    ∀ (entries : List FileEntry) (s : Analyzer2State),
      s.pending.length = s.txCount →
      (analyzer2Go cl K s entries).committed.flatten
        = s.committed.flatten ++ s.pending ++ entries.map (processEntry2 cl) := by
  intro entries
  induction entries with
  | nil =>
      intro s hs
      rw [analyzer2Go]
      by_cases h : s.txCount = 0
      · have hp : s.pending = [] := by
          have := hs
          rw [h] at this
          exact List.eq_nil_of_length_eq_zero this
        simp [h, hp]
      · simp [h]
  | cons e rest ih =>
      intro s hs
      rw [analyzer2Go]
      by_cases h : s.txCount + 1 = K
      · simp only [h, if_true]
        rw [ih _ (by simp)]
        simp
      · simp only [h, if_false]
        rw [ih _ (by simp [hs])]
        simp

theorem analyzer2Go_classifiedPaths (cl : Classifier) (K : Nat) :
    ∀ (entries : List FileEntry) (s : Analyzer2State),
      (analyzer2Go cl K s entries).classifiedPaths
        = s.classifiedPaths ++ entries.map classifyPath2 := by
  intro entries
  induction entries with
  | nil =>
      intro s
      rw [analyzer2Go]
      by_cases h : s.txCount = 0 <;> simp [h]
  | cons e rest ih =>
      intro s
      rw [analyzer2Go]
      by_cases h : s.txCount + 1 = K <;> simp only [h, if_true, if_false] <;>
        rw [ih] <;> simp

/-- Specification of the committed transaction sizes after `T` rows have
been appended with commit interval `K`: `T / K` full transactions of `K`
rows, then the final flush of `T % K` rows when it is nonzero. -/
def commitSpec (K T : Nat) : List Nat :=
  List.replicate (T / K) K ++ (if T % K = 0 then [] else [T % K])

theorem commitSpec_shift (K M : Nat) (hK : 0 < K) :
    commitSpec K (K + M) = K :: commitSpec K M := by
  unfold commitSpec
  rw [Nat.add_comm K M, Nat.add_div_right M hK, Nat.add_mod_right M K]
  simp [List.replicate_succ]

/-- The committed transaction sizes of variant 2's analyzer follow
`commitSpec`, starting from any loop state. -/
theorem analyzer2Go_commit_sizes (cl : Classifier) (K : Nat) (hK : 0 < K) :
    ∀ (entries : List FileEntry) (s : Analyzer2State),
      s.pending.length = s.txCount → s.txCount < K →
      (analyzer2Go cl K s entries).committed.map List.length
        = s.committed.map List.length ++ commitSpec K (s.txCount + entries.length) := by
  intro entries
  induction entries with
  | nil =>
      intro s hs hlt
      rw [analyzer2Go]
      by_cases h : s.txCount = 0
      · simp [h, commitSpec]
      · simp only [h, if_true, ne_eq, not_false_iff]
        have hmod : s.txCount % K = s.txCount := Nat.mod_eq_of_lt hlt
        have hdiv : s.txCount / K = 0 := Nat.div_eq_of_lt hlt
        simp [commitSpec, hdiv, hmod, h, hs]
  | cons e rest ih =>
      intro s hs hlt
      rw [analyzer2Go]
      by_cases h : s.txCount + 1 = K
      · simp only [h, if_true]
        rw [ih _ (by simp) hK]
        have harith : s.txCount + (e :: rest).length = K + rest.length := by
          simp
          omega
        rw [harith, commitSpec_shift K rest.length hK]
        simp [hs, h]
      · simp only [h, if_false]
        rw [ih _ (by simp [hs]) (by simp; omega)]
        have harith : s.txCount + 1 + rest.length = s.txCount + (e :: rest).length := by
          simp
          omega
        simp [harith]

/-- All rows variant 2's analyzer persists: one `processEntry2` row per
received entry, in order (nothing is dropped, the final partial batch
included). -/
theorem analyzer2_rows (cl : Classifier) (K : Nat) (entries : List FileEntry) :
    (analyzer2 (some cl) K entries).rows = entries.map (processEntry2 cl) := by
  show (analyzer2Go cl K analyzer2Start entries).committed.flatten = _
  rw [analyzer2Go_rows cl K entries analyzer2Start rfl]
  simp [analyzer2Start]

/-- All rows variant 1's analyzer persists: one row per received entry
whose classification succeeded. -/
theorem analyzer1_rows (cl : Classifier) (entries : List FileEntry) :
    (analyzer1 (some cl) entries).rows = entries.filterMap (processEntry1 cl) :=
  analyzer1Go_rows cl entries

theorem commitSpec_length (K T : Nat) (hK : 0 < K) :
    (commitSpec K T).length = (T + K - 1) / K := by
  have hmod := Nat.div_add_mod T K
  have hrlt : T % K < K := Nat.mod_lt _ hK
  have e1 : T + K - 1 = K * (T / K) + (T % K + K - 1) := by omega
  rw [commitSpec, e1, Nat.mul_add_div hK]
  by_cases h : T % K = 0
  · rw [h]
    rw [Nat.div_eq_of_lt (show 0 + K - 1 < K by omega)]
    simp
  · have e2 : T % K + K - 1 = (T % K - 1) + 1 * K := by omega
    rw [e2, Nat.add_mul_div_right _ _ hK,
      Nat.div_eq_of_lt (show T % K - 1 < K by omega)]
    simp [h]

theorem commitSpec_sum (K T : Nat) :
    (commitSpec K T).sum = T := by
  unfold commitSpec
  by_cases h : T % K = 0
  · simp only [h, if_true, List.append_nil, List.sum_replicate, smul_eq_mul]
    exact Nat.div_mul_cancel (Nat.dvd_of_mod_eq_zero h)
  · simp only [h, if_false, List.sum_append, List.sum_replicate, smul_eq_mul,
      List.sum_cons, List.sum_nil, Nat.add_zero]
    exact Nat.div_add_mod' T K

theorem commitSpec_getLastD (K T : Nat) (hT : 0 < T) :
    (commitSpec K T).getLastD 0 = if T % K = 0 then K else T % K := by
  have hmod := Nat.div_add_mod T K
  unfold commitSpec
  by_cases h : T % K = 0
  · obtain ⟨q, hq⟩ : ∃ q, T / K = q + 1 := by
      rcases Nat.eq_zero_or_pos (T / K) with h0 | h0
      · rw [h0] at hmod
        simp at hmod
        omega
      · exact ⟨T / K - 1, by omega⟩
    rw [h, hq]
    simp [List.replicate_succ']
  · simp [h]

/-- C3.  Variant 2's worker with commit interval `K` receiving `M`
entries commits exactly `⌈M/K⌉ = (M+K-1)/K` transactions whose row
counts sum to `M` (so the final partial batch is committed on channel
exhaustion, never dropped), and the last committed transaction holds
`M mod K` rows, or `K` when `M` is a multiple of `K`. -/
theorem worker_commit_batches (cl : Classifier) (K : Nat)
    (entries : List FileEntry) (hK : 0 < K) :
    (analyzer2 (some cl) K entries).committed.length
        = (entries.length + K - 1) / K
    ∧ ((analyzer2 (some cl) K entries).committed.map List.length).sum
        = entries.length
    ∧ (0 < entries.length →
        ((analyzer2 (some cl) K entries).committed.map List.length).getLastD 0
          = if entries.length % K = 0 then K else entries.length % K) := by
  have hmap : (analyzer2 (some cl) K entries).committed.map List.length
      = commitSpec K entries.length := by
    show (analyzer2Go cl K analyzer2Start entries).committed.map List.length = _
    rw [analyzer2Go_commit_sizes cl K hK entries analyzer2Start rfl hK]
    simp [analyzer2Start]
  refine ⟨?_, ?_, ?_⟩
  · have h1 : ((analyzer2 (some cl) K entries).committed.map List.length).length
        = (commitSpec K entries.length).length := by rw [hmap]
    rw [List.length_map] at h1
    rw [h1, commitSpec_length _ _ hK]
  · rw [hmap, commitSpec_sum]
  · intro hM
    rw [hmap, commitSpec_getLastD _ _ hM]

/-! ### Concrete sample data used by closed theorems -/

/-- A classifier that succeeds on every path with a fixed libmagic-style
description. -/
def clConst : Classifier := fun _ => some "ASCII text, with very long lines"

/-- A classifier that fails on every path. -/
def clFail : Classifier := fun _ => none

/-- A plain file entry below `/data`. -/
def sampleEntry : FileEntry := ⟨"/data", ⟨"notes.txt", 10, 420, "t2", false⟩⟩

/-- Seven identical entries, for exercising the commit interval. -/
def entries7 : List FileEntry := List.replicate 7 sampleEntry

/-- `/data/sub/a.bin`. -/
def abinNode : FsNode := .file ⟨"a.bin", 0, 420, "t4"⟩

/-- `/data/notes.txt`. -/
def notesNode : FsNode := .file ⟨"notes.txt", 10, 420, "t2"⟩

/-- `/data/sub`, a subdirectory holding one file. -/
def subNode : FsNode := .dir ⟨"sub", 96, 16877, "t3"⟩ [abinNode]

/-- The spec's concrete scenario: root `/data` containing `notes.txt`
and subdirectory `sub/` containing `a.bin`. -/
def sampleTree : FsNode := .dir ⟨"data", 96, 16877, "t1"⟩ [notesNode, subNode]

theorem walkQueue_nil : walkQueue [] = [] := by
  rw [walkQueue]

theorem walkQueue_cons (p : String) (ch : List FsNode)
    (rest : List (String × List FsNode)) :
    walkQueue ((p, ch) :: rest)
      = ch.map (fun c => (⟨p, c.info⟩ : FileEntry))
        ++ walkQueue (rest ++ dirPairs p ch) := by
  rw [walkQueue]

/-- The walk of the sample tree, fully evaluated (the loop is defined by
well-founded recursion, so this is proved by unrolling its equations). -/
theorem sampleWalk_eval :
    fileTreeWalkerTree "/data" sampleTree
      = [⟨"/", ⟨"data", 96, 16877, "t1", true⟩⟩,
         ⟨"/data", ⟨"notes.txt", 10, 420, "t2", false⟩⟩,
         ⟨"/data", ⟨"sub", 96, 16877, "t3", true⟩⟩,
         ⟨"/data/sub", ⟨"a.bin", 0, 420, "t4", false⟩⟩] := by
  have h1 : fileTreeWalkerTree "/data" sampleTree
      = ⟨"/", ⟨"data", 96, 16877, "t1", true⟩⟩
        :: walkQueue [("/data", [notesNode, subNode])] := rfl
  have h2 : dirPairs "/data" [notesNode, subNode]
      = [("/data/sub", [abinNode])] := rfl
  have h3 : dirPairs "/data/sub" [abinNode] = [] := rfl
  rw [h1, walkQueue_cons, h2]
  simp only [List.nil_append]
  rw [walkQueue_cons, h3]
  simp only [List.nil_append, List.append_nil]
  rw [walkQueue_nil]
  rfl

/-! ### C9: the classification summary -/

/-- C9.  Every persisted row's `short_file_info` equals the substring of
its `file_info` before the first comma, for both analyzers, and the
summary of an empty classification is empty: the code's guarded
`strings.Split(fileInfo, ",")[0]` refines the spec's description. -/
theorem classification_summary_before_first_comma
    (cl : Classifier) (K : Nat) (entries : List FileEntry) :
    (∀ r ∈ (analyzer2 (some cl) K entries).rows,
        r.shortFileInfo = specClassificationSummary r.fileInfo)
    ∧ (∀ r ∈ (analyzer1 (some cl) entries).rows,
        r.shortFileInfo = specClassificationSummary r.fileInfo)
    ∧ specClassificationSummary "" = "" := by
  have hsplit : ∀ t : String,
      (if t = "" then "" else splitFirst t) = specClassificationSummary t := by
    intro t
    by_cases h : t = ""
    · subst h
      rfl
    · simp [h, splitFirst, specClassificationSummary]
  refine ⟨?_, ?_, rfl⟩
  · intro r hr
    rw [analyzer2_rows] at hr
    obtain ⟨e, he, hre⟩ := List.mem_map.mp hr
    rw [← hre]
    exact hsplit _
  · intro r hr
    rw [analyzer1_rows] at hr
    obtain ⟨e, he, hre⟩ := List.mem_filterMap.mp hr
    unfold processEntry1 at hre
    cases h : cl (classifyPath1 e) with
    | none =>
        simp only [h] at hre
        exact Option.noConfusion hre
    | some fi =>
        simp only [h] at hre
        cases hre
        exact hsplit fi

/-- The row variant 2's analyzer builds for the sample file entry. -/
def sampleRow : Row := processEntry2 clConst sampleEntry

/-- Witness for C9 at a concrete input: the persisted row for
`/data/notes.txt` carries summary `"ASCII text"`, the prefix of the
classification before its first comma. -/
theorem classification_summary_before_first_comma_witness :
    sampleRow ∈ (analyzer2 (some clConst) 2 [sampleEntry]).rows
    ∧ sampleRow.shortFileInfo = specClassificationSummary sampleRow.fileInfo
    ∧ sampleRow.shortFileInfo = "ASCII text" :=
  ⟨by decide,
   (classification_summary_before_first_comma clConst 2 [sampleEntry]).1
     sampleRow (by decide),
   by decide⟩

/-! ### C4: classifier failure vs persistence -/

/-- C4 counterexample.  In variant 1's analyzer (the SQLite worker,
src/calyx.go lines 157-160), a classifier failure hits `continue`: the
entry is read and classified but no row reaches the store, so the claim
"the worker still persists that entry" is false at this input. -/
theorem classifier_failure_skips_entry_in_sqlite_worker :
    clFail (classifyPath1 sampleEntry) = none
    ∧ (analyzer1 (some clFail) [sampleEntry]).consumed = [sampleEntry]
    ∧ (analyzer1 (some clFail) [sampleEntry]).rows = [] :=
  ⟨rfl, rfl, rfl⟩

/-- C4 as amended.  When the classifier fails on an entry, variant 2's
worker (the batched Postgres worker) still persists it, with empty
classification and classification-summary fields; variant 1's worker
(the SQLite worker) instead skips persisting it — its processing
function yields no row for the entry, and its stored rows are exactly
the rows of the entries whose classification succeeded. -/
theorem classifier_failure_persistence_policy
    (cl : Classifier) (K : Nat) (entries : List FileEntry) (e : FileEntry)
    (he : e ∈ entries) (h2 : cl (classifyPath2 e) = none)
    (h1 : cl (classifyPath1 e) = none) :
    (∃ r ∈ (analyzer2 (some cl) K entries).rows,
        r.name = classifyPath2 e ∧ r.fileInfo = "" ∧ r.shortFileInfo = "")
    ∧ processEntry1 cl e = none
    ∧ (analyzer1 (some cl) entries).rows = entries.filterMap (processEntry1 cl) := by
  refine ⟨⟨processEntry2 cl e, ?_, rfl, ?_, ?_⟩, ?_, analyzer1_rows cl entries⟩
  · rw [analyzer2_rows]
    exact List.mem_map_of_mem _ he
  · simp [processEntry2, h2]
  · simp [processEntry2, h2]
  · simp [processEntry1, h1]

/-- Witness for C4's amended claim at a concrete input. -/
theorem classifier_failure_persistence_policy_witness :
    (sampleEntry ∈ [sampleEntry]
      ∧ clFail (classifyPath2 sampleEntry) = none
      ∧ clFail (classifyPath1 sampleEntry) = none)
    ∧ ((∃ r ∈ (analyzer2 (some clFail) 5 [sampleEntry]).rows,
          r.name = classifyPath2 sampleEntry ∧ r.fileInfo = "" ∧ r.shortFileInfo = "")
        ∧ processEntry1 clFail sampleEntry = none
        ∧ (analyzer1 (some clFail) [sampleEntry]).rows
            = [sampleEntry].filterMap (processEntry1 clFail)) :=
  ⟨⟨by decide, rfl, rfl⟩,
   classifier_failure_persistence_policy clFail 5 [sampleEntry] sampleEntry
     (by decide) rfl rfl⟩

/-! ### C5: the path handed to the classifier and the store -/

/-- C5 counterexample.  On the walk of the sample tree, variant 2's
worker records the subdirectory entry (`sub`, walk position 2, not the
root sentinel at position 0) under its parent `/data` instead of the
join `/data/sub`; and variant 1's worker records the root sentinel under
the join `/data` instead of its parent directory `/` alone.  Both
contradict the claim's "join except for the root sentinel" rule. -/
theorem recorded_path_cex :
    (analyzer2 (some clConst) 1000 (fileTreeWalkerTree "/data" sampleTree)).rows.map
        Row.name = ["/", "/data/notes.txt", "/data", "/data/sub/a.bin"]
    ∧ (analyzer1 (some clConst) (fileTreeWalkerTree "/data" sampleTree)).rows.map
        Row.name = ["/data", "/data/notes.txt", "/data/sub", "/data/sub/a.bin"]
    ∧ (fileTreeWalkerTree "/data" sampleTree).getD 2 default
        = ⟨"/data", ⟨"sub", 96, 16877, "t3", true⟩⟩
    ∧ pathJoin "/data" "sub" = "/data/sub"
    ∧ ("/data" : String) ≠ "/data/sub"
    ∧ pathDir "/data" = "/"
    ∧ ("/data" : String) ≠ "/" := by
  rw [sampleWalk_eval]
  exact ⟨rfl, rfl, rfl, rfl, by decide, rfl, by decide⟩

/-- C5 as amended.  For every entry processed by a worker: variant 1
(SQLite) hands the classifier and records the join of `parentDirectory`
and `name` for every entry, the root sentinel included; variant 2
(Postgres) does so for non-directories but uses `parentDirectory` alone
for every directory entry, not only for the root sentinel. -/
theorem recorded_path_policy (cl : Classifier) (K : Nat) (entries : List FileEntry) :
    ((analyzer2 (some cl) K entries).rows.map Row.name = entries.map classifyPath2)
    ∧ ((analyzer2 (some cl) K entries).classifiedPaths = entries.map classifyPath2)
    ∧ ((analyzer1 (some cl) entries).classifiedPaths = entries.map classifyPath1)
    ∧ ((analyzer1 (some cl) entries).rows.map Row.name
        = (entries.filter (fun e => (cl (classifyPath1 e)).isSome)).map classifyPath1)
    ∧ (∀ e : FileEntry, classifyPath2 e
        = if e.info.isDir then e.path else pathJoin e.path e.info.name)
    ∧ (∀ e : FileEntry, classifyPath1 e = pathJoin e.path e.info.name) := by
  refine ⟨?_, ?_, analyzer1Go_classifiedPaths cl entries, ?_, fun e => rfl, fun e => rfl⟩
  · rw [analyzer2_rows, List.map_map]
    rfl
  · show (analyzer2Go cl K analyzer2Start entries).classifiedPaths = _
    rw [analyzer2Go_classifiedPaths]
    simp [analyzer2Start]
  · rw [analyzer1_rows]
    induction entries with
    | nil => rfl
    | cons e rest ih =>
        cases h : cl (classifyPath1 e) with
        | none => simp [processEntry1, h, ih]
        | some fi => simp [processEntry1, h, ih]

/-! ### C10: failed classifier setup -/

/-- C10.  When `gomagic.New` fails, either analyzer returns before its
receive loop: it consumes no entry, calls the classifier on nothing,
logs nothing, and hands the store nothing. -/
theorem failed_magic_init_returns_immediately (K : Nat) (entries : List FileEntry) :
    analyzer2 none K entries = analyzer2Start
    ∧ (analyzer2 none K entries).consumed = []
    ∧ (analyzer2 none K entries).classifiedPaths = []
    ∧ (analyzer2 none K entries).logs = []
    ∧ (analyzer2 none K entries).committed = []
    ∧ (analyzer2 none K entries).rows = []
    ∧ analyzer1 none entries = ⟨[], [], []⟩ :=
  ⟨rfl, rfl, rfl, rfl, rfl, rfl, rfl⟩

/-! ### C6: INSERT OR REPLACE against the created schema -/

/-- The `file_info` table of variant 1's store: the auto-assigned
INTEGER PRIMARY KEY id next to each row. -/
structure SqliteTable where
  nextId : Nat
  tableRows : List (Nat × Row)
deriving DecidableEq, Repr

/-- Modelled from SQLite's documented semantics for the exact schema
`createTable` makes (src/calyx.go lines 65-76): the table declares only
`id INTEGER NOT NULL PRIMARY KEY` and no UNIQUE constraint on any other
column, and the insert statement (lines 131-142) omits `id`, so a fresh
rowid is auto-assigned, no uniqueness conflict can ever arise, and
`INSERT OR REPLACE` behaves as a plain append (SQLite's OR REPLACE
clause only replaces rows that conflict on some uniqueness
constraint). -/
def insertOrReplace (t : SqliteTable) (r : Row) : SqliteTable :=
  ⟨t.nextId + 1, t.tableRows ++ [(t.nextId, r)]⟩

/-- One run of variant 1's pipeline against a store: every row the
analyzer produced is executed with the INSERT OR REPLACE statement. -/
def persistRun1 (cl : Classifier) (entries : List FileEntry)
    (t : SqliteTable) : SqliteTable :=
  ((analyzer1 (some cl) entries).rows).foldl insertOrReplace t

/-- A freshly created, empty `file_info` table. -/
def emptyTable : SqliteTable := ⟨1, []⟩

/-- C6.  Persisting the same single entry twice through variant 1's
INSERT OR REPLACE leaves two rows with the same path in the store: the
second run appends instead of replacing, because the schema gives
OR REPLACE no uniqueness constraint to conflict on.  The claim's
"no duplicate pairs after re-running upsert mode" is what the
`INSERT OR REPLACE` statement is evidently for, and it fails. -/
theorem insert_or_replace_never_replaces :
    (persistRun1 clConst [sampleEntry]
        (persistRun1 clConst [sampleEntry] emptyTable)).tableRows.map
          (fun p => p.2.name)
      = ["/data/notes.txt", "/data/notes.txt"]
    ∧ ¬ List.Nodup
        ((persistRun1 clConst [sampleEntry]
            (persistRun1 clConst [sampleEntry] emptyTable)).tableRows.map
              (fun p => p.2.name)) :=
  ⟨rfl, by decide⟩

/-! ### C2: one channel, several workers

The Go channel hands every sent value to exactly one receiver.  A run of
the worker pool is modelled by the sequence of entries the Walker sends
and an arbitrary receive schedule assigning each send position to the
worker whose receive accepted it; `workerReceives` is the subsequence of
send positions worker `w` got.  Exactly-once delivery holds for every
schedule, hence for every interleaving of the `N` workers. -/

/-- The send positions of `entries` that worker `w` receives under
receive schedule `sched`. -/
def workerReceives {n : Nat} (entries : List FileEntry)
    (sched : List (Fin n)) (w : Fin n) : List Nat :=
  (List.range entries.length).filter (fun i => sched[i]? = some w)

/-- C2.  For every tree the Walker walks, every worker count `n`, and
every receive schedule covering the walk, each produced entry (by its
position in the send order) is received by exactly one of the `n`
workers: entries are never duplicated to, nor withheld from, the
pool. -/
theorem channel_delivers_each_entry_to_exactly_one_worker
    {n : Nat} (rootPath : String) (root : FsNode) (sched : List (Fin n))
    (h : sched.length = (fileTreeWalkerTree rootPath root).length)
    (i : Nat) (hi : i < (fileTreeWalkerTree rootPath root).length) :
    ∃! w : Fin n,
      i ∈ workerReceives (fileTreeWalkerTree rootPath root) sched w := by
  have hi' : i < sched.length := by omega
  refine ⟨sched.get ⟨i, hi'⟩, ?_, ?_⟩
  · simp only [workerReceives, List.mem_filter, List.mem_range,
      decide_eq_true_eq]
    exact ⟨hi, by rw [List.getElem?_eq_getElem hi']; rfl⟩
  · intro w hw
    simp only [workerReceives, List.mem_filter, List.mem_range,
      decide_eq_true_eq] at hw
    obtain ⟨-, hw2⟩ := hw
    rw [List.getElem?_eq_getElem hi'] at hw2
    exact (Option.some.inj hw2).symm

/-- Witness for C2 at a concrete input: on the sample walk (4 entries)
with two workers and schedule `[0, 1, 1, 0]`, entry 2 is received by
exactly one worker. -/
theorem channel_delivers_each_entry_to_exactly_one_worker_witness :
    ∃! w : Fin 2,
      2 ∈ workerReceives (fileTreeWalkerTree "/data" sampleTree)
        ([0, 1, 1, 0] : List (Fin 2)) w :=
  channel_delivers_each_entry_to_exactly_one_worker "/data" sampleTree
    ([0, 1, 1, 0] : List (Fin 2))
    (by rw [sampleWalk_eval]; rfl)
    2 (by rw [sampleWalk_eval]; decide)

/-- Witness for C3 at a concrete input: commit interval 3, seven
entries. -/
theorem worker_commit_batches_witness :
    0 < 3
    ∧ ((analyzer2 (some clConst) 3 entries7).committed.length
        = (entries7.length + 3 - 1) / 3
      ∧ ((analyzer2 (some clConst) 3 entries7).committed.map List.length).sum
          = entries7.length
      ∧ (0 < entries7.length →
          ((analyzer2 (some clConst) 3 entries7).committed.map List.length).getLastD 0
            = if entries7.length % 3 = 0 then 3 else entries7.length % 3)) :=
  ⟨by decide, worker_commit_batches clConst 3 entries7 (by decide)⟩

end Calyx
